import Mathlib

/-!
Verification of the NZ Lotto simulator (`CODE_BASE.py`).

The Python source is shallowly embedded below.  Conventions:
* a Python string is modelled as a `List Char` (type `Str`), and the
  Python string operations used by the source (`strip`, `split`,
  `replace`, `upper`, `int(...)`) are modelled as explicit functions on
  `List Char`;
* monetary amounts are exact and kept in integer cents (the Python
  floats `0.70`, `23_500`, ... become `70`, `2350000`, ... cents);
* the ticket text widget is modelled as the list of its lines, and the
  `tk` display labels (pure rendering) are not modelled;
* randomness is passed in explicitly: `draw_lotto` receives the shuffled
  ball list, quick picks / wheels receive their samples.
-/

abbrev Str := List Char

/-- The whitespace characters recognised by Python's default `str.strip()`
and `str.split()` (ASCII part). -/
def isWs (c : Char) : Bool :=
  c = ' ' || c = '\t' || c = '\n' || c = '\r' || c = '\x0b' || c = '\x0c'

/-- Python `s.strip()`: remove leading and trailing whitespace. -/
def pyStrip (s : Str) : Str :=
  ((s.dropWhile isWs).reverse.dropWhile isWs).reverse

/-- Worker for `pySplitWs`: `acc` holds the (reversed) characters of the
token currently being read. -/
def splitWsAux : Str → Str → List Str
  | [], acc => if acc = [] then [] else [acc.reverse]
  | c :: cs, acc =>
    if isWs c then
      if acc = [] then splitWsAux cs [] else acc.reverse :: splitWsAux cs []
    else splitWsAux cs (c :: acc)

/-- Python `s.split()` (no separator): split on runs of whitespace,
dropping empty pieces. -/
def pySplitWs (s : Str) : List Str := splitWsAux s []

/-- Python `int(tok)` on a whitespace-free token: optional sign followed
by decimal digits (the exotic `_` digit-group separators accepted by
Python are not modelled; no token of the simulator's grammar uses them). -/
def natOfDigits (cs : Str) : Nat :=
  cs.foldl (fun a c => a * 10 + (c.toNat - 48)) 0

def pyInt? (s : Str) : Option Int :=
  match s with
  | [] => none
  | c :: cs =>
    if c = '-' then
      if cs ≠ [] ∧ cs.all Char.isDigit then some (-(natOfDigits cs : Int)) else none
    else if c = '+' then
      if cs ≠ [] ∧ cs.all Char.isDigit then some ((natOfDigits cs : Int)) else none
    else if (c :: cs).all Char.isDigit then
      some ((natOfDigits (c :: cs) : Int))
    else none

/-- One parsed wager line: `{'nums': [...], 'pb': int or None}`. -/
structure TicketLine where
  nums : List Int
  pb : Option Int
deriving DecidableEq, Repr

/-- The token loop of `parse_ticket_lines`: walks the token list,
recognising `PB`/`PB=value` supplementary markers and collecting the
integer tokens, exactly as the `while i < len(tokens)` loop does. -/
def parseToks : List Str → List Int → Option Int → List Int × Option Int
  | [], nums, pb => (nums, pb)
  | tok :: rest, nums, pb =>
    let t := tok.map Char.toUpper
    if ("PB".data).isPrefixOf t then
      if t = "PB".data then
        match rest with
        | nxt :: rest2 =>
          -- `pb = int(tokens[i+1]); i += 2` (next token consumed either way)
          match pyInt? nxt with
          | some v => parseToks rest2 nums (some v)
          | none   => parseToks rest2 nums pb
        | [] =>
          -- falls through to `int("PB")`, which raises and is skipped
          (nums, pb)
      else if t.contains '=' then
        -- `pb = int(tok.split("=", 1)[1])`, failures ignored
        match pyInt? ((t.dropWhile (fun c => c ≠ '=')).tail) with
        | some v => parseToks rest nums (some v)
        | none   => parseToks rest nums pb
      else
        -- `int(tok)` on a token starting with "PB" always raises; skipped
        match pyInt? t with
        | some v => parseToks rest (nums ++ [v]) pb
        | none   => parseToks rest nums pb
    else
      match pyInt? t with
      | some v => parseToks rest (nums ++ [v]) pb
      | none   => parseToks rest nums pb

/-- The character substitution of
`left.replace("|", " ").replace(",", " ")`. -/
def repl (c : Char) : Char := if c = '|' then ' ' else if c = ',' then ' ' else c

/-- `tokens = left.replace("|", " ").replace(",", " ").split()`. -/
def tokenize (left : Str) : List Str :=
  pySplitWs (left.map repl)

/-- Parse one raw line of the ticket text; `none` means the line is
skipped (blank, comment, or fewer than 6 valid numbers). -/
def parseLine (raw : Str) : Option TicketLine :=
  let s := pyStrip raw
  if s = [] then none
  else if s.head? = some '#' then none
  else
    -- everything before a tab is the left part that we parse
    let left := s.takeWhile (fun c => c ≠ '\t')
    let r := parseToks (tokenize left) [] none
    let nums := (r.1.filter (fun n => decide (1 ≤ n ∧ n ≤ 40))).take 6
    if nums.length < 6 then none
    else
      let pb := match r.2 with
        | some p => if 1 ≤ p ∧ p ≤ 10 then some p else none
        | none => none
      some ⟨nums, pb⟩

/-- `parse_ticket_lines`, with the ticket text given as its list of
lines (Python's `.strip().splitlines()`). -/
def parse_ticket_lines (lines : List Str) : List TicketLine :=
  lines.filterMap parseLine

/-! ## Constants (monetary values in integer cents) -/

def COST_LOTTO_ONLY : Nat := 70
def COST_LOTTO_PB : Nat := 150
def COST_STRIKE : Nat := 100

/-- Lotto payouts by division without Powerball (Div 1..7), in cents. -/
def LOTTO_NO_PB : List Nat := [100000000, 2350000, 67400, 4800, 2600, 2100, 280]

/-- Lotto payouts by division with Powerball (Div 1..7), in cents. -/
def LOTTO_WITH_PB : List Nat := [3000000000, 3256000, 85000, 9800, 5100, 4100, 1780]

/-- Strike payouts S1..S4, in cents. -/
def STRIKE_PAYOUT : List Nat := [100, 7700, 54500, 100000000]

/-- Default draws per second for autorun pacing. -/
def DEFAULT_SPEED : Nat := 10000

/-- The prize codes: 7 lotto divisions and 4 strike tiers. -/
def CODES : List String := ["D1", "D2", "D3", "D4", "D5", "D6", "D7", "S1", "S2", "S3", "S4"]

/-! ## Formatting (`z2`, `add_ticket_line`) -/

def digitChar : Nat → Char
  | 0 => '0' | 1 => '1' | 2 => '2' | 3 => '3' | 4 => '4'
  | 5 => '5' | 6 => '6' | 7 => '7' | 8 => '8' | _ => '9'

/-- `z2(n) = f"{n:02d}"` for the values the simulator prints (all call
sites pass integers in `[1, 40]`, so two digits always suffice). -/
def z2 (n : Int) : Str := [digitChar (n.toNat / 10), digitChar (n.toNat % 10)]

/-- `" ".join(pieces)`. -/
def joinSp : List Str → Str
  | [] => []
  | [t] => t
  | t :: ts => t ++ ' ' :: joinSp ts

/-- The left part of an emitted ticket line: zero-padded numbers joined
by spaces, with an optional `" | PB NN"` suffix. -/
def ticket_line_left (nums : List Int) (pb : Option Int) : Str :=
  match pb with
  | some p => joinSp (nums.map z2) ++ (" | PB ".data ++ z2 p)
  | none => joinSp (nums.map z2)

/-- The line of text `add_ticket_line` appends to the ticket widget
(without the final newline): the left part and — when Strike is on — a
tab followed by the first four numbers as a display-only right column. -/
def add_ticket_line_text (nums : List Int) (pb : Option Int) (strike_on : Bool) : Str :=
  if strike_on then ticket_line_left nums pb ++ '\t' :: joinSp ((nums.take 4).map z2)
  else ticket_line_left nums pb

/-! ## Simulator state

One structure for the `tk` variables the core logic reads and writes:
the `stats` / `paid` dictionaries (as functions from prize-code strings),
the aggregates, the configuration toggles, the base-number list `V` and
the ticket text (as its list of lines).  Pure display labels are not
modelled. -/

structure SimState where
  stats : String → Nat
  paid : String → Nat
  spend : Nat
  returns : Nat
  drawNumber : Nat
  speed : Nat
  powerball : Bool
  strike : Bool
  baseV : List Int
  ticket : List Str
  running : Bool

/-- The state at process start (`init_vars` plus the initial variable
values). -/
def initState : SimState where
  stats := fun _ => 0
  paid := fun _ => 0
  spend := 0
  returns := 0
  drawNumber := 0
  speed := DEFAULT_SPEED
  powerball := false
  strike := false
  baseV := []
  ticket := []
  running := false

/-- Point update of a tally dictionary. -/
def bump (f : String → Nat) (k : String) (a : Nat) : String → Nat :=
  fun x => if x = k then f x + a else f x

/-- `award_lotto(division, powerball_matched)`: division 1..7. -/
def award_lotto (division : Nat) (powerball_matched : Bool) (st : SimState) : SimState :=
  let code := "D" ++ toString division
  let amount := (if powerball_matched then LOTTO_WITH_PB else LOTTO_NO_PB).getD (division - 1) 0
  { st with stats := bump st.stats code 1, paid := bump st.paid code amount }

/-- `award_strike(hits)`: hits 1..4 for Strike. -/
def award_strike (hits : Nat) (st : SimState) : SimState :=
  { st with
    stats := bump st.stats ("S" ++ toString hits) 1,
    paid := bump st.paid ("S" ++ toString hits) (STRIKE_PAYOUT.getD (hits - 1) 0) }

/-- The `division` if-chain of `score_line_against_draw`:
division by `(m, b)`. -/
def division_by_mb (m : Nat) (b : Bool) : Option Nat :=
  if m = 6 then some 1
  else if m = 5 ∧ b then some 2
  else if m = 5 then some 3
  else if m = 4 ∧ b then some 4
  else if m = 4 then some 5
  else if m = 3 ∧ b then some 6
  else if m = 3 then some 7
  else none

/-- `score_line_against_draw`: score one ticket line, returning the spend
incurred (cents) together with the state updated by the payout side
effects on `stats` and `paid`. -/
def score_line_against_draw (line : TicketLine) (main6 : List Int) (bonus pb_draw : Int)
    (strike_on : Bool) (st : SimState) : Nat × SimState :=
  let cost := if line.pb.isSome then COST_LOTTO_PB else COST_LOTTO_ONLY
  let cost := if strike_on then cost + COST_STRIKE else cost
  let nums := line.nums
  let m := nums.countP (fun x => decide (x ∈ main6))  -- count of main matches
  let b := decide (bonus ∈ nums)                      -- bonus matched
  let division := division_by_mb m b
  let pb_matched := decide (line.pb = some pb_draw)   -- pb declared and equal
  let st := match division with
    | some d => award_lotto d pb_matched st
    | none => st
  let st :=
    if strike_on then
      -- Strike uses first 4 numbers in typed order vs first 4 drawn in draw order
      let strike_guess := nums.take 4
      let strike_draw := main6.take 4
      let hits := (List.range 4).countP
        (fun i => decide (strike_guess.getD i 0 = strike_draw.getD i 0))
      if hits ≥ 1 then award_strike hits st else st
    else st
  (cost, st)

/-! ## Draw generator -/

/-- The ball pool `list(range(1, 41))`. -/
def lotto_pool : List Int :=
  [1, 2, 3, 4, 5, 6, 7, 8, 9, 10, 11, 12, 13, 14, 15, 16, 17, 18, 19, 20,
   21, 22, 23, 24, 25, 26, 27, 28, 29, 30, 31, 32, 33, 34, 35, 36, 37, 38, 39, 40]

/-- `draw_lotto`, with the randomness passed in: `balls` is the pool
after `rng.shuffle` (any permutation of `lotto_pool`), `pb` the result
of `rng.randrange(1, 11)`.  Returns `(main6, bonus, powerball)` with the
main numbers in drawn order. -/
def draw_lotto (balls : List Int) (pb : Int) : List Int × Int × Int :=
  (balls.take 6, balls.getD 6 0, pb)

/-! ## Ledger aggregation and the draw cycle -/

/-- `sum(v.get() for v in paid.values())`. -/
def totalPaid (st : SimState) : Nat := (CODES.map st.paid).sum

/-- The state effect of `refresh_paid_labels`: recompute the aggregate
returns from the per-code paid amounts (label rendering not modelled). -/
def refresh_paid_labels (st : SimState) : SimState :=
  { st with returns := totalPaid st }

/-- `do_draw_once`, with the randomness of the draw passed in.  When no
valid ticket line parses, the cycle aborts (status message only) without
touching the counters, ledger or randomness. -/
def do_draw_once (balls : List Int) (pb_rand : Int) (st : SimState) : SimState :=
  let lines := parse_ticket_lines st.ticket
  if lines = [] then st
  else
    let st1 := { st with drawNumber := st.drawNumber + 1 }
    let d := draw_lotto balls pb_rand
    let main6 := d.1
    let bonus := d.2.1
    let pb := d.2.2
    let strike_on := st1.strike
    let r := lines.foldl
      (fun acc line =>
        let s := score_line_against_draw line main6 bonus pb strike_on acc.2
        (acc.1 + s.1, s.2)) (0, st1)
    refresh_paid_labels { r.2 with spend := r.2.spend + r.1 }

/-- `on_reset`: stop the run, clear the ticket, zero every tally and
aggregate, restore the control defaults and clear the base numbers. -/
def on_reset (st : SimState) : SimState :=
  { st with
    running := false,
    ticket := [],
    stats := fun _ => 0,
    paid := fun _ => 0,
    spend := 0,
    returns := 0,
    speed := DEFAULT_SPEED,
    powerball := false,
    strike := false,
    baseV := [],
    drawNumber := 0 }

/-- The observable ledger snapshot: per-code tallies, aggregates, and
`balance = returns − spend`. -/
structure Snapshot where
  hits : String → Nat
  paidAmt : String → Nat
  totalSpend : Nat
  totalReturns : Nat
  balance : Int

def snapshot (st : SimState) : Snapshot :=
  ⟨st.stats, st.paid, st.spend, st.returns, (st.returns : Int) - (st.spend : Int)⟩

/-! ## System wheels -/

/-- The ticket lines a wheel emits for a base set: one line per
6-element combination of the base (`itertools.combinations(base, 6)`;
emission order is not modelled), each with its independently drawn
optional Powerball from `pbs`. -/
def wheel_lines (base : List Int) (pbs : List (Option Int)) (strike_on : Bool) : List Str :=
  (base.sublistsLen 6).mapIdx fun i comb => add_ticket_line_text comb (pbs.getD i none) strike_on

/-- `system_wheel(m)`, with the randomness passed in: `sample` is the
fresh sorted `rng.sample(range(1, 41), m)` used when the stored base `V`
does not have exactly `m` entries, `pbs` the per-line Powerball draws.
Returns the updated state and the base actually used (which the status
line reports). -/
def system_wheel (m : Nat) (sample : List Int) (pbs : List (Option Int))
    (st : SimState) : SimState × List Int :=
  let base := if st.baseV.length = m then st.baseV else sample
  ({ st with ticket := st.ticket ++ wheel_lines base pbs st.strike }, base)

/-! ## Helper lemmas about the tally dictionaries and awards -/

theorem bump_apply (f : String → Nat) (k : String) (a : Nat) (x : String) :
    bump f k a x = if x = k then f x + a else f x := rfl

theorem dCode_ne_sCode (a b : String) : ("D" ++ a : String) ≠ "S" ++ b := by
  intro h
  have hd : ("D" ++ a).data = ("S" ++ b).data := by rw [h]
  rw [String.data_append, String.data_append] at hd
  have hd' : 'D' :: a.data = 'S' :: b.data := hd
  simp only [List.cons.injEq] at hd'
  exact absurd hd'.1 (by decide)

theorem division_by_mb_bounds {m : Nat} {b : Bool} {d : Nat}
    (h : division_by_mb m b = some d) : 1 ≤ d ∧ d ≤ 7 := by
  unfold division_by_mb at h
  split_ifs at h <;>
    first
      | exact Option.noConfusion h
      | (injection h with h; omega)

theorem dCode_inj {d d' : Nat} (hd1 : 1 ≤ d) (hd7 : d ≤ 7) (he1 : 1 ≤ d') (he7 : d' ≤ 7) :
    (("D" ++ toString d : String) = "D" ++ toString d') ↔ d = d' := by
  constructor
  · intro h
    interval_cases d <;> interval_cases d' <;> first | rfl | (exfalso; revert h; decide)
  · rintro rfl; rfl

theorem sCode_inj {d d' : Nat} (hd1 : 1 ≤ d) (hd7 : d ≤ 4) (he1 : 1 ≤ d') (he7 : d' ≤ 4) :
    (("S" ++ toString d : String) = "S" ++ toString d') ↔ d = d' := by
  constructor
  · intro h
    interval_cases d <;> interval_cases d' <;> first | rfl | (exfalso; revert h; decide)
  · rintro rfl; rfl

theorem award_lotto_stats (d : Nat) (pbm : Bool) (st : SimState) (x : String) :
    (award_lotto d pbm st).stats x =
      if x = "D" ++ toString d then st.stats x + 1 else st.stats x := rfl

theorem award_lotto_paid (d : Nat) (pbm : Bool) (st : SimState) (x : String) :
    (award_lotto d pbm st).paid x =
      if x = "D" ++ toString d
      then st.paid x + (if pbm then LOTTO_WITH_PB else LOTTO_NO_PB).getD (d - 1) 0
      else st.paid x := rfl

theorem award_strike_stats (hits : Nat) (st : SimState) (x : String) :
    (award_strike hits st).stats x =
      if x = "S" ++ toString hits then st.stats x + 1 else st.stats x := rfl

theorem award_strike_paid (hits : Nat) (st : SimState) (x : String) :
    (award_strike hits st).paid x =
      if x = "S" ++ toString hits
      then st.paid x + STRIKE_PAYOUT.getD (hits - 1) 0
      else st.paid x := rfl

/-- The lotto-award phase of `score_line_against_draw` (the
`if division is not None: award_lotto(...)` part). -/
def lotto_stage (div? : Option Nat) (pbm : Bool) (st : SimState) : SimState :=
  match div? with
  | some d => award_lotto d pbm st
  | none => st

/-- The strike phase of `score_line_against_draw` (the
`if strike_on: ... if hits >= 1: award_strike(hits)` part). -/
def strike_stage (strike_on : Bool) (hits : Nat) (st : SimState) : SimState :=
  if strike_on then (if hits ≥ 1 then award_strike hits st else st) else st

/-- The state component of `score_line_against_draw` is the lotto-award
stage followed by the strike stage. -/
theorem score_line_snd (line : TicketLine) (main6 : List Int) (bonus pb_draw : Int)
    (strike_on : Bool) (st : SimState) :
    (score_line_against_draw line main6 bonus pb_draw strike_on st).2 =
      strike_stage strike_on
        ((List.range 4).countP
          (fun i => decide ((line.nums.take 4).getD i 0 = (main6.take 4).getD i 0)))
        (lotto_stage
          (division_by_mb (line.nums.countP (fun x => decide (x ∈ main6)))
            (decide (bonus ∈ line.nums)))
          (decide (line.pb = some pb_draw)) st) := rfl

/-- The strike stage never touches a division code's tallies. -/
theorem strike_stage_D (strike_on : Bool) (hits : Nat) (st : SimState) (a : String) :
    (strike_stage strike_on hits st).stats ("D" ++ a) = st.stats ("D" ++ a)
    ∧ (strike_stage strike_on hits st).paid ("D" ++ a) = st.paid ("D" ++ a) := by
  unfold strike_stage
  by_cases hs : strike_on = true
  · rw [if_pos hs]
    by_cases h : hits ≥ 1
    · rw [if_pos h, award_strike_stats, award_strike_paid,
        if_neg (dCode_ne_sCode _ _), if_neg (dCode_ne_sCode _ _)]
      exact ⟨rfl, rfl⟩
    · rw [if_neg h]; exact ⟨rfl, rfl⟩
  · rw [if_neg hs]; exact ⟨rfl, rfl⟩

/-- The lotto-award stage never touches a strike code's tallies. -/
theorem lotto_stage_S (div? : Option Nat) (pbm : Bool) (st : SimState) (a : String) :
    (lotto_stage div? pbm st).stats ("S" ++ a) = st.stats ("S" ++ a)
    ∧ (lotto_stage div? pbm st).paid ("S" ++ a) = st.paid ("S" ++ a) := by
  cases div? with
  | none => exact ⟨rfl, rfl⟩
  | some d =>
    unfold lotto_stage
    rw [award_lotto_stats, award_lotto_paid,
      if_neg (fun h => dCode_ne_sCode _ _ h.symm), if_neg (fun h => dCode_ne_sCode _ _ h.symm)]
    exact ⟨rfl, rfl⟩

/-! ## C1: the main-game division mapping -/

/-- C1: for a ticket line of 6 distinct numbers in [1,40] and any draw,
`score_line_against_draw` awards at most one main-game division, and the
division is a pure function of `(m, b)` — `m` the unordered count of the
line's numbers among the draw's 6 main numbers, `b` whether the bonus is
among the line's numbers — with mapping m=6 ↦ D1 (regardless of b),
(5,b) ↦ D2, 5 ↦ D3, (4,b) ↦ D4, 4 ↦ D5, (3,b) ↦ D6, 3 ↦ D7, and no
award otherwise: exactly the mapped division's hit counter is
incremented, every other division's is untouched. -/
theorem scoreLine_division_pure
    (line : TicketLine) (main6 : List Int) (bonus pb_draw : Int)
    (strike_on : Bool) (st : SimState)
    (hlen : line.nums.length = 6) (hnodup : line.nums.Nodup)
    (hrange : ∀ n ∈ line.nums, 1 ≤ n ∧ n ≤ 40) :
    ((∀ b, division_by_mb 6 b = some 1)
      ∧ division_by_mb 5 true = some 2 ∧ division_by_mb 5 false = some 3
      ∧ division_by_mb 4 true = some 4 ∧ division_by_mb 4 false = some 5
      ∧ division_by_mb 3 true = some 6 ∧ division_by_mb 3 false = some 7
      ∧ (∀ m b, m ≠ 6 → m ≠ 5 → m ≠ 4 → m ≠ 3 → division_by_mb m b = none))
    ∧ (∀ d, 1 ≤ d → d ≤ 7 →
        (score_line_against_draw line main6 bonus pb_draw strike_on st).2.stats
            ("D" ++ toString d)
          = st.stats ("D" ++ toString d)
            + (if division_by_mb (line.nums.countP (fun x => decide (x ∈ main6)))
                  (decide (bonus ∈ line.nums)) = some d
               then 1 else 0)) := by
  constructor
  · refine ⟨fun b => rfl, rfl, rfl, rfl, rfl, rfl, rfl, ?_⟩
    intro m b h6 h5 h4 h3
    unfold division_by_mb
    split_ifs <;> first | rfl | simp_all
  · intro d hd1 hd7
    rw [score_line_snd]
    cases hdiv : division_by_mb (line.nums.countP (fun x => decide (x ∈ main6)))
        (decide (bonus ∈ line.nums)) with
    | none =>
      rw [(strike_stage_D _ _ _ _).1]
      simp [lotto_stage]
    | some d0 =>
      obtain ⟨h01, h07⟩ := division_by_mb_bounds hdiv
      rw [(strike_stage_D _ _ _ _).1]
      simp only [lotto_stage]
      rw [award_lotto_stats]
      by_cases hde : d = d0
      · subst hde
        rw [if_pos rfl]
        simp
      · rw [if_neg (by
          intro hstr
          exact hde ((dCode_inj hd1 hd7 h01 h07).mp hstr))]
        simp [Ne.symm hde]

/-- Witness for C1 at the spec's concrete scenario: line `[1,2,3,4,5,6]`,
draw main `[1,2,3,4,5,6]`, bonus `7`. -/
theorem scoreLine_division_pure_witness :
    (([1, 2, 3, 4, 5, 6] : List Int).length = 6
      ∧ ([1, 2, 3, 4, 5, 6] : List Int).Nodup
      ∧ (∀ n ∈ ([1, 2, 3, 4, 5, 6] : List Int), 1 ≤ n ∧ n ≤ 40))
    ∧ (((∀ b, division_by_mb 6 b = some 1)
      ∧ division_by_mb 5 true = some 2 ∧ division_by_mb 5 false = some 3
      ∧ division_by_mb 4 true = some 4 ∧ division_by_mb 4 false = some 5
      ∧ division_by_mb 3 true = some 6 ∧ division_by_mb 3 false = some 7
      ∧ (∀ m b, m ≠ 6 → m ≠ 5 → m ≠ 4 → m ≠ 3 → division_by_mb m b = none))
    ∧ (∀ d, 1 ≤ d → d ≤ 7 →
        (score_line_against_draw ⟨[1, 2, 3, 4, 5, 6], none⟩ [1, 2, 3, 4, 5, 6] 7 3 false
            initState).2.stats ("D" ++ toString d)
          = initState.stats ("D" ++ toString d)
            + (if division_by_mb
                  (([1, 2, 3, 4, 5, 6] : List Int).countP
                    (fun x => decide (x ∈ ([1, 2, 3, 4, 5, 6] : List Int))))
                  (decide ((7 : Int) ∈ ([1, 2, 3, 4, 5, 6] : List Int))) = some d
               then 1 else 0))) :=
  ⟨⟨by decide, by decide, by decide⟩,
    scoreLine_division_pure ⟨[1, 2, 3, 4, 5, 6], none⟩ [1, 2, 3, 4, 5, 6] 7 3 false initState
      (by decide) (by decide) (by decide)⟩

/-! ## C2: the ordered Strike side bet -/

/-- C2: with the side bet enabled, `score_line_against_draw` compares the
line's first 4 numbers in typed order against the draw's first 4 main
numbers in drawn order, position by position; with `hits ≥ 1` positional
matches exactly the tier-`hits` strike code is awarded (hit counter +1,
payout from the strictly increasing table `STRIKE_PAYOUT`), with 0
positional matches no strike code changes, and with the side bet
disabled no strike code changes at all. -/
theorem scoreLine_strike_tiers
    (line : TicketLine) (main6 : List Int) (bonus pb_draw : Int) (st : SimState)
    (hlen : line.nums.length = 6) (hmain : main6.length = 6) :
    (STRIKE_PAYOUT.getD 0 0 < STRIKE_PAYOUT.getD 1 0
      ∧ STRIKE_PAYOUT.getD 1 0 < STRIKE_PAYOUT.getD 2 0
      ∧ STRIKE_PAYOUT.getD 2 0 < STRIKE_PAYOUT.getD 3 0)
    ∧ (∀ h', 1 ≤ h' → h' ≤ 4 →
        (score_line_against_draw line main6 bonus pb_draw true st).2.stats ("S" ++ toString h')
            = st.stats ("S" ++ toString h')
              + (if h' = (List.range 4).countP
                    (fun i => decide ((line.nums.take 4).getD i 0 = (main6.take 4).getD i 0))
                 then 1 else 0)
          ∧ (score_line_against_draw line main6 bonus pb_draw true st).2.paid ("S" ++ toString h')
            = st.paid ("S" ++ toString h')
              + (if h' = (List.range 4).countP
                    (fun i => decide ((line.nums.take 4).getD i 0 = (main6.take 4).getD i 0))
                 then STRIKE_PAYOUT.getD (h' - 1) 0 else 0))
    ∧ (∀ a : String,
        (score_line_against_draw line main6 bonus pb_draw false st).2.stats ("S" ++ a)
            = st.stats ("S" ++ a)
          ∧ (score_line_against_draw line main6 bonus pb_draw false st).2.paid ("S" ++ a)
            = st.paid ("S" ++ a)) := by
  refine ⟨by decide, ?_, ?_⟩
  · intro h' h1 h4
    rw [score_line_snd]
    set hits := (List.range 4).countP
      (fun i => decide ((line.nums.take 4).getD i 0 = (main6.take 4).getD i 0)) with hhits
    have hhits4 : hits ≤ 4 := le_trans (List.countP_le_length _) (by simp)
    unfold strike_stage
    rw [if_pos rfl]
    by_cases hge : hits ≥ 1
    · rw [if_pos hge, award_strike_stats, award_strike_paid]
      by_cases he : h' = hits
      · subst he
        simp [(lotto_stage_S _ _ _ _).1, (lotto_stage_S _ _ _ _).2]
      · rw [if_neg (fun hstr => he ((sCode_inj h1 h4 hge hhits4).mp hstr)),
          if_neg (fun hstr => he ((sCode_inj h1 h4 hge hhits4).mp hstr)),
          if_neg he, if_neg he,
          (lotto_stage_S _ _ _ _).1, (lotto_stage_S _ _ _ _).2]
        exact ⟨by omega, by omega⟩
    · have h0 : hits = 0 := by omega
      rw [if_neg hge, if_neg (by omega : ¬ h' = hits), if_neg (by omega : ¬ h' = hits),
        (lotto_stage_S _ _ _ _).1, (lotto_stage_S _ _ _ _).2]
      exact ⟨by omega, by omega⟩
  · intro a
    rw [score_line_snd]
    unfold strike_stage
    rw [if_neg (by decide)]
    exact ⟨(lotto_stage_S _ _ _ _).1, (lotto_stage_S _ _ _ _).2⟩

/-- Witness for C2 at the spec's concrete scenario: line typed
`[6,5,4,3,2,1]` against draw `[1,2,3,4,5,6]` gives 0 positional matches
among the first four, so no strike tier is awarded. -/
theorem scoreLine_strike_tiers_witness :
    (([6, 5, 4, 3, 2, 1] : List Int).length = 6 ∧ ([1, 2, 3, 4, 5, 6] : List Int).length = 6
      ∧ (List.range 4).countP
          (fun i => decide ((([6, 5, 4, 3, 2, 1] : List Int).take 4).getD i 0
            = (([1, 2, 3, 4, 5, 6] : List Int).take 4).getD i 0)) = 0)
    ∧ ((STRIKE_PAYOUT.getD 0 0 < STRIKE_PAYOUT.getD 1 0
      ∧ STRIKE_PAYOUT.getD 1 0 < STRIKE_PAYOUT.getD 2 0
      ∧ STRIKE_PAYOUT.getD 2 0 < STRIKE_PAYOUT.getD 3 0)
    ∧ (∀ h', 1 ≤ h' → h' ≤ 4 →
        (score_line_against_draw ⟨[6, 5, 4, 3, 2, 1], none⟩ [1, 2, 3, 4, 5, 6] 7 3 true
            initState).2.stats ("S" ++ toString h')
            = initState.stats ("S" ++ toString h')
              + (if h' = (List.range 4).countP
                    (fun i => decide ((([6, 5, 4, 3, 2, 1] : List Int).take 4).getD i 0
                      = (([1, 2, 3, 4, 5, 6] : List Int).take 4).getD i 0))
                 then 1 else 0)
          ∧ (score_line_against_draw ⟨[6, 5, 4, 3, 2, 1], none⟩ [1, 2, 3, 4, 5, 6] 7 3 true
            initState).2.paid ("S" ++ toString h')
            = initState.paid ("S" ++ toString h')
              + (if h' = (List.range 4).countP
                    (fun i => decide ((([6, 5, 4, 3, 2, 1] : List Int).take 4).getD i 0
                      = (([1, 2, 3, 4, 5, 6] : List Int).take 4).getD i 0))
                 then STRIKE_PAYOUT.getD (h' - 1) 0 else 0))
    ∧ (∀ a : String,
        (score_line_against_draw ⟨[6, 5, 4, 3, 2, 1], none⟩ [1, 2, 3, 4, 5, 6] 7 3 false
            initState).2.stats ("S" ++ a) = initState.stats ("S" ++ a)
          ∧ (score_line_against_draw ⟨[6, 5, 4, 3, 2, 1], none⟩ [1, 2, 3, 4, 5, 6] 7 3 false
            initState).2.paid ("S" ++ a) = initState.paid ("S" ++ a))) :=
  ⟨⟨by decide, by decide, by decide⟩,
    scoreLine_strike_tiers ⟨[6, 5, 4, 3, 2, 1], none⟩ [1, 2, 3, 4, 5, 6] 7 3 initState
      (by decide) (by decide)⟩

/-! ## C3: the supplementary (Powerball) payout upgrade -/

/-- C3: when a division is awarded, its payout comes from the higher
table `LOTTO_WITH_PB` exactly when the line declared a supplementary
number equal to the draw's (`line.pb = some pb_draw`), and from
`LOTTO_NO_PB` otherwise — in particular a line with no declared
supplementary number never gets the higher table — and when no division
is won, a supplementary match changes no division tally at all (no
standalone supplementary-only prize). -/
theorem scoreLine_pb_upgrade
    (line : TicketLine) (main6 : List Int) (bonus pb_draw : Int)
    (strike_on : Bool) (st : SimState) :
    (∀ d, division_by_mb (line.nums.countP (fun x => decide (x ∈ main6)))
            (decide (bonus ∈ line.nums)) = some d →
        (score_line_against_draw line main6 bonus pb_draw strike_on st).2.paid
            ("D" ++ toString d)
          = st.paid ("D" ++ toString d)
            + (if line.pb = some pb_draw then LOTTO_WITH_PB.getD (d - 1) 0
               else LOTTO_NO_PB.getD (d - 1) 0))
    ∧ (line.pb = none →
        ∀ d, division_by_mb (line.nums.countP (fun x => decide (x ∈ main6)))
            (decide (bonus ∈ line.nums)) = some d →
          (score_line_against_draw line main6 bonus pb_draw strike_on st).2.paid
              ("D" ++ toString d)
            = st.paid ("D" ++ toString d) + LOTTO_NO_PB.getD (d - 1) 0)
    ∧ (division_by_mb (line.nums.countP (fun x => decide (x ∈ main6)))
          (decide (bonus ∈ line.nums)) = none →
        ∀ d : Nat,
          (score_line_against_draw line main6 bonus pb_draw strike_on st).2.stats
              ("D" ++ toString d) = st.stats ("D" ++ toString d)
          ∧ (score_line_against_draw line main6 bonus pb_draw strike_on st).2.paid
              ("D" ++ toString d) = st.paid ("D" ++ toString d)) := by
  have hmain :
      ∀ d, division_by_mb (line.nums.countP (fun x => decide (x ∈ main6)))
            (decide (bonus ∈ line.nums)) = some d →
        (score_line_against_draw line main6 bonus pb_draw strike_on st).2.paid
            ("D" ++ toString d)
          = st.paid ("D" ++ toString d)
            + (if line.pb = some pb_draw then LOTTO_WITH_PB.getD (d - 1) 0
               else LOTTO_NO_PB.getD (d - 1) 0) := by
    intro d hdiv
    rw [score_line_snd, hdiv, (strike_stage_D _ _ _ _).2]
    unfold lotto_stage
    rw [award_lotto_paid, if_pos rfl]
    by_cases hpb : line.pb = some pb_draw
    · rw [if_pos hpb, if_pos (by simpa using hpb)]
    · rw [if_neg hpb, if_neg (by simpa using hpb)]
  refine ⟨hmain, fun hnone d hdiv => ?_, fun hdiv d => ?_⟩
  · rw [hmain d hdiv, if_neg (by rw [hnone]; exact Option.noConfusion)]
  · rw [score_line_snd, hdiv]
    exact ⟨(strike_stage_D _ _ _ _).1, (strike_stage_D _ _ _ _).2⟩

/-- Witness for C3 at the spec's Division-7 scenario: line
`[1,2,3,40,39,38]` (no supplementary) against draw `[1,2,3,4,5,6]`,
bonus 7, supplementary 3 — Division 7, lower-table payout. -/
theorem scoreLine_pb_upgrade_witness :
    division_by_mb
        (([1, 2, 3, 40, 39, 38] : List Int).countP
          (fun x => decide (x ∈ ([1, 2, 3, 4, 5, 6] : List Int))))
        (decide ((7 : Int) ∈ ([1, 2, 3, 40, 39, 38] : List Int))) = some 7
    ∧ (score_line_against_draw ⟨[1, 2, 3, 40, 39, 38], none⟩ [1, 2, 3, 4, 5, 6] 7 3 false
          initState).2.paid ("D" ++ toString 7)
        = initState.paid ("D" ++ toString 7)
          + (if (⟨[1, 2, 3, 40, 39, 38], none⟩ : TicketLine).pb = some 3
             then LOTTO_WITH_PB.getD (7 - 1) 0 else LOTTO_NO_PB.getD (7 - 1) 0) :=
  ⟨by decide,
    (scoreLine_pb_upgrade ⟨[1, 2, 3, 40, 39, 38], none⟩ [1, 2, 3, 4, 5, 6] 7 3 false
      initState).1 7 (by decide)⟩

/-! ## C5: validity of generated draws -/

theorem mem_lotto_pool {x : Int} : x ∈ lotto_pool ↔ 1 ≤ x ∧ x ≤ 40 := by
  constructor
  · intro hx
    simp only [lotto_pool, List.mem_cons, List.not_mem_nil, or_false] at hx
    rcases hx with h | hx <;> omega
  · rintro ⟨hx1, hx2⟩
    interval_cases x <;> decide

/-- C5: for every permutation of the 1..40 pool and every supplementary
value the random source can yield, `draw_lotto` produces 6 distinct main
numbers in [1,40], a bonus in [1,40] distinct from all 6 main numbers,
and the supplementary value passed in — which is independent of the ball
permutation and lies in [1,10]. -/
theorem draw_lotto_valid (balls : List Int) (pb : Int)
    (hperm : balls.Perm lotto_pool) (hpb1 : 1 ≤ pb) (hpb10 : pb ≤ 10) :
    (draw_lotto balls pb).1.length = 6
    ∧ (draw_lotto balls pb).1.Nodup
    ∧ (∀ x ∈ (draw_lotto balls pb).1, 1 ≤ x ∧ x ≤ 40)
    ∧ (1 ≤ (draw_lotto balls pb).2.1 ∧ (draw_lotto balls pb).2.1 ≤ 40)
    ∧ (draw_lotto balls pb).2.1 ∉ (draw_lotto balls pb).1
    ∧ (draw_lotto balls pb).2.2 = pb
    ∧ 1 ≤ (draw_lotto balls pb).2.2 ∧ (draw_lotto balls pb).2.2 ≤ 10 := by
  have hlen : balls.length = 40 := by rw [hperm.length_eq]; decide
  have h6 : 6 < balls.length := by omega
  have hnodup : balls.Nodup := hperm.nodup_iff.mpr (by decide)
  have hmemIff : ∀ x, x ∈ balls ↔ (1 ≤ x ∧ x ≤ 40) :=
    fun x => (hperm.mem_iff).trans mem_lotto_pool
  refine ⟨?_, ?_, ?_, ?_, ?_, rfl, hpb1, hpb10⟩
  · show (balls.take 6).length = 6
    rw [List.length_take, hlen]
    decide
  · exact hnodup.sublist (List.take_sublist 6 balls)
  · exact fun x hx => (hmemIff x).mp (List.mem_of_mem_take hx)
  · show 1 ≤ balls.getD 6 0 ∧ balls.getD 6 0 ≤ 40
    rw [List.getD_eq_getElem balls 0 h6]
    exact (hmemIff _).mp (List.getElem_mem h6)
  · show balls.getD 6 0 ∉ balls.take 6
    intro hmem
    rw [List.getD_eq_getElem balls 0 h6] at hmem
    obtain ⟨i, hi, hEq⟩ := List.mem_iff_getElem.mp hmem
    have hi6 : i < 6 := by rw [List.length_take] at hi; omega
    rw [List.getElem_take] at hEq
    have : i = 6 := (hnodup.getElem_inj_iff).mp hEq
    omega

/-- Witness for C5 at the identity permutation and supplementary 3. -/
theorem draw_lotto_valid_witness :
    (lotto_pool.Perm lotto_pool ∧ (1 : Int) ≤ 3 ∧ (3 : Int) ≤ 10)
    ∧ ((draw_lotto lotto_pool 3).1.length = 6
    ∧ (draw_lotto lotto_pool 3).1.Nodup
    ∧ (∀ x ∈ (draw_lotto lotto_pool 3).1, 1 ≤ x ∧ x ≤ 40)
    ∧ (1 ≤ (draw_lotto lotto_pool 3).2.1 ∧ (draw_lotto lotto_pool 3).2.1 ≤ 40)
    ∧ (draw_lotto lotto_pool 3).2.1 ∉ (draw_lotto lotto_pool 3).1
    ∧ (draw_lotto lotto_pool 3).2.2 = 3
    ∧ 1 ≤ (draw_lotto lotto_pool 3).2.2 ∧ (draw_lotto lotto_pool 3).2.2 ≤ 10) :=
  ⟨⟨List.Perm.refl lotto_pool, by decide, by decide⟩,
    draw_lotto_valid lotto_pool 3 (List.Perm.refl lotto_pool) (by decide) (by decide)⟩

/-! ## C6: ledger monotonicity across a draw cycle -/

theorem lotto_stage_effect (div? : Option Nat) (pbm : Bool) (st : SimState) :
    (∀ x, st.stats x ≤ (lotto_stage div? pbm st).stats x)
    ∧ (∀ x, st.paid x ≤ (lotto_stage div? pbm st).paid x)
    ∧ (lotto_stage div? pbm st).spend = st.spend
    ∧ (lotto_stage div? pbm st).returns = st.returns := by
  cases div? with
  | none => exact ⟨fun _ => le_refl _, fun _ => le_refl _, rfl, rfl⟩
  | some d =>
    unfold lotto_stage
    refine ⟨fun x => ?_, fun x => ?_, rfl, rfl⟩
    · rw [award_lotto_stats]; split <;> omega
    · rw [award_lotto_paid]; split <;> omega

theorem strike_stage_effect (s : Bool) (hits : Nat) (st : SimState) :
    (∀ x, st.stats x ≤ (strike_stage s hits st).stats x)
    ∧ (∀ x, st.paid x ≤ (strike_stage s hits st).paid x)
    ∧ (strike_stage s hits st).spend = st.spend
    ∧ (strike_stage s hits st).returns = st.returns := by
  unfold strike_stage
  split_ifs
  · refine ⟨fun x => ?_, fun x => ?_, rfl, rfl⟩
    · rw [award_strike_stats]; split <;> omega
    · rw [award_strike_paid]; split <;> omega
  · exact ⟨fun _ => le_refl _, fun _ => le_refl _, rfl, rfl⟩
  · exact ⟨fun _ => le_refl _, fun _ => le_refl _, rfl, rfl⟩

/-- Scoring one line only ever increases the per-code tallies, and does
not touch the aggregates. -/
theorem score_line_effect (line : TicketLine) (main6 : List Int) (bonus pbd : Int)
    (s : Bool) (st : SimState) :
    (∀ x, st.stats x ≤ (score_line_against_draw line main6 bonus pbd s st).2.stats x)
    ∧ (∀ x, st.paid x ≤ (score_line_against_draw line main6 bonus pbd s st).2.paid x)
    ∧ (score_line_against_draw line main6 bonus pbd s st).2.spend = st.spend
    ∧ (score_line_against_draw line main6 bonus pbd s st).2.returns = st.returns := by
  rw [score_line_snd]
  obtain ⟨a1, a2, a3, a4⟩ := lotto_stage_effect
    (division_by_mb (line.nums.countP (fun x => decide (x ∈ main6)))
      (decide (bonus ∈ line.nums))) (decide (line.pb = some pbd)) st
  obtain ⟨b1, b2, b3, b4⟩ := strike_stage_effect s
    ((List.range 4).countP
      (fun i => decide ((line.nums.take 4).getD i 0 = (main6.take 4).getD i 0)))
    (lotto_stage
      (division_by_mb (line.nums.countP (fun x => decide (x ∈ main6)))
        (decide (bonus ∈ line.nums))) (decide (line.pb = some pbd)) st)
  exact ⟨fun x => le_trans (a1 x) (b1 x), fun x => le_trans (a2 x) (b2 x),
    b3.trans a3, b4.trans a4⟩

/-- The scoring fold of `do_draw_once` only ever increases the tallies
and never touches the aggregates. -/
theorem foldl_score_effect (main6 : List Int) (bonus pbd : Int) (s : Bool) :
    ∀ (lines : List TicketLine) (init : Nat × SimState),
      (∀ x, init.2.stats x ≤ (lines.foldl
          (fun acc line =>
            let r := score_line_against_draw line main6 bonus pbd s acc.2
            (acc.1 + r.1, r.2)) init).2.stats x)
      ∧ (∀ x, init.2.paid x ≤ (lines.foldl
          (fun acc line =>
            let r := score_line_against_draw line main6 bonus pbd s acc.2
            (acc.1 + r.1, r.2)) init).2.paid x)
      ∧ (lines.foldl
          (fun acc line =>
            let r := score_line_against_draw line main6 bonus pbd s acc.2
            (acc.1 + r.1, r.2)) init).2.spend = init.2.spend
      ∧ (lines.foldl
          (fun acc line =>
            let r := score_line_against_draw line main6 bonus pbd s acc.2
            (acc.1 + r.1, r.2)) init).2.returns = init.2.returns := by
  intro lines
  induction lines with
  | nil => exact fun init => ⟨fun _ => le_refl _, fun _ => le_refl _, rfl, rfl⟩
  | cons l ls ih =>
    intro init
    obtain ⟨s1, s2, s3, s4⟩ := score_line_effect l main6 bonus pbd s init.2
    obtain ⟨i1, i2, i3, i4⟩ := ih
      (init.1 + (score_line_against_draw l main6 bonus pbd s init.2).1,
        (score_line_against_draw l main6 bonus pbd s init.2).2)
    exact ⟨fun x => le_trans (s1 x) (i1 x), fun x => le_trans (s2 x) (i2 x),
      i3.trans s3, i4.trans s4⟩

/-- C6: between resets, a draw cycle only ever increases every per-code
hit count and paid amount as well as the aggregate spend and returns
(each award adds a non-negative amount and bumps exactly its own hit
counter by one), and after the cycle the returns aggregate equals the
sum of all per-code paid amounts. -/
theorem do_draw_once_monotone (st : SimState) (balls : List Int) (pb_rand : Int)
    (hret : st.returns = totalPaid st) :
    (∀ x, st.stats x ≤ (do_draw_once balls pb_rand st).stats x)
    ∧ (∀ x, st.paid x ≤ (do_draw_once balls pb_rand st).paid x)
    ∧ st.spend ≤ (do_draw_once balls pb_rand st).spend
    ∧ st.returns ≤ (do_draw_once balls pb_rand st).returns
    ∧ (do_draw_once balls pb_rand st).returns = totalPaid (do_draw_once balls pb_rand st)
    ∧ (∀ d pbm s', (award_lotto d pbm s').stats ("D" ++ toString d)
        = s'.stats ("D" ++ toString d) + 1)
    ∧ (∀ h s', (award_strike h s').stats ("S" ++ toString h)
        = s'.stats ("S" ++ toString h) + 1) := by
  have hawards :
      (∀ d pbm s', (award_lotto d pbm s').stats ("D" ++ toString d)
          = s'.stats ("D" ++ toString d) + 1)
      ∧ (∀ h s', (award_strike h s').stats ("S" ++ toString h)
          = s'.stats ("S" ++ toString h) + 1) := by
    constructor
    · intro d pbm s'; rw [award_lotto_stats, if_pos rfl]
    · intro h s'; rw [award_strike_stats, if_pos rfl]
  by_cases hl : parse_ticket_lines st.ticket = []
  · simp only [do_draw_once, hl, if_pos]
    exact ⟨fun _ => le_refl _, fun _ => le_refl _, le_refl _, le_refl _, hret,
      hawards.1, hawards.2⟩
  · simp only [do_draw_once]
    rw [if_neg hl]
    obtain ⟨f1, f2, f3, f4⟩ := foldl_score_effect (draw_lotto balls pb_rand).1
      (draw_lotto balls pb_rand).2.1 (draw_lotto balls pb_rand).2.2
      { st with drawNumber := st.drawNumber + 1 }.strike
      (parse_ticket_lines st.ticket) (0, { st with drawNumber := st.drawNumber + 1 })
    refine ⟨fun x => f1 x, fun x => f2 x, ?_, ?_, rfl, hawards.1, hawards.2⟩
    · show st.spend ≤ _
      simp only [refresh_paid_labels]
      rw [f3]
      exact Nat.le_add_right _ _
    · have hle : totalPaid { st with drawNumber := st.drawNumber + 1 } ≤ totalPaid
          ((parse_ticket_lines st.ticket).foldl
            (fun acc line =>
              let r := score_line_against_draw line (draw_lotto balls pb_rand).1
                (draw_lotto balls pb_rand).2.1 (draw_lotto balls pb_rand).2.2
                ({ st with drawNumber := st.drawNumber + 1 } : SimState).strike acc.2
              (acc.1 + r.1, r.2)) (0, { st with drawNumber := st.drawNumber + 1 })).2 := by
        unfold totalPaid
        exact List.sum_le_sum (fun c _ => f2 c)
      exact le_trans (le_of_eq hret) hle

/-- Witness for C6: one ticket line, identity permutation. -/
theorem do_draw_once_monotone_witness :
    ({ initState with ticket := ["01 02 03 04 05 06".data] } : SimState).returns
        = totalPaid { initState with ticket := ["01 02 03 04 05 06".data] }
    ∧ ((∀ x, ({ initState with ticket := ["01 02 03 04 05 06".data] } : SimState).stats x
          ≤ (do_draw_once lotto_pool 3
              { initState with ticket := ["01 02 03 04 05 06".data] }).stats x)
    ∧ (∀ x, ({ initState with ticket := ["01 02 03 04 05 06".data] } : SimState).paid x
          ≤ (do_draw_once lotto_pool 3
              { initState with ticket := ["01 02 03 04 05 06".data] }).paid x)
    ∧ ({ initState with ticket := ["01 02 03 04 05 06".data] } : SimState).spend
          ≤ (do_draw_once lotto_pool 3
              { initState with ticket := ["01 02 03 04 05 06".data] }).spend
    ∧ ({ initState with ticket := ["01 02 03 04 05 06".data] } : SimState).returns
          ≤ (do_draw_once lotto_pool 3
              { initState with ticket := ["01 02 03 04 05 06".data] }).returns
    ∧ (do_draw_once lotto_pool 3
          { initState with ticket := ["01 02 03 04 05 06".data] }).returns
        = totalPaid (do_draw_once lotto_pool 3
            { initState with ticket := ["01 02 03 04 05 06".data] })
    ∧ (∀ d pbm s', (award_lotto d pbm s').stats ("D" ++ toString d)
        = s'.stats ("D" ++ toString d) + 1)
    ∧ (∀ h s', (award_strike h s').stats ("S" ++ toString h)
        = s'.stats ("S" ++ toString h) + 1)) :=
  ⟨rfl, do_draw_once_monotone { initState with ticket := ["01 02 03 04 05 06".data] }
    lotto_pool 3 rfl⟩

/-! ## C7: a cycle with no valid ticket lines is a no-op -/

/-- C7: when the current ticket text parses to no valid line, one draw
cycle leaves the whole state unchanged — draw counter, per-code tallies,
spend and returns — and its result does not depend on the random inputs,
since no draw is generated (the status message, pure display, is the
only effect in the source). -/
theorem do_draw_once_no_lines (st : SimState)
    (h : parse_ticket_lines st.ticket = []) (balls : List Int) (pb_rand : Int) :
    do_draw_once balls pb_rand st = st := by
  simp [do_draw_once, h]

/-- Witness for C7: the empty ticket. -/
theorem do_draw_once_no_lines_witness :
    parse_ticket_lines initState.ticket = []
    ∧ do_draw_once lotto_pool 3 initState = initState :=
  ⟨rfl, do_draw_once_no_lines initState rfl lotto_pool 3⟩

/-! ## C8: reset completeness -/

/-- C8: after `on_reset`, from any state, the snapshot equals the
zero-valued initial snapshot: every per-code hit count and paid amount
is 0, spend, returns and balance are 0, the draw counter is 0, the
configuration toggles are back at their defaults, and the ticket and
base-number set are cleared. -/
theorem on_reset_complete (st : SimState) :
    snapshot (on_reset st) = snapshot initState
    ∧ (on_reset st).drawNumber = 0
    ∧ (∀ x, (on_reset st).stats x = 0)
    ∧ (∀ x, (on_reset st).paid x = 0)
    ∧ (on_reset st).spend = 0
    ∧ (on_reset st).returns = 0
    ∧ (snapshot (on_reset st)).balance = 0
    ∧ (on_reset st).speed = DEFAULT_SPEED
    ∧ (on_reset st).powerball = false
    ∧ (on_reset st).strike = false
    ∧ (on_reset st).ticket = []
    ∧ (on_reset st).baseV = []
    ∧ (on_reset st).running = false :=
  ⟨rfl, rfl, fun _ => rfl, fun _ => rfl, rfl, rfl, rfl, rfl, rfl, rfl, rfl, rfl, rfl⟩

/-! ## C10: base choice of the system wheel -/

/-- C10: `system_wheel m` uses the stored base-number set `V` as the
wheel's base exactly when `V` holds `m` numbers; for any other stored
size it silently uses the fresh sample instead — the emitted ticket
lines are built from the sample and the user's stored numbers are
ignored — and in both cases the stored base set itself is unchanged. -/
theorem system_wheel_base_choice (st : SimState) (m : Nat) (sample : List Int)
    (pbs : List (Option Int)) :
    ((system_wheel m sample pbs st).1.baseV = st.baseV)
    ∧ (st.baseV.length = m →
        (system_wheel m sample pbs st).2 = st.baseV
        ∧ (system_wheel m sample pbs st).1.ticket
            = st.ticket ++ wheel_lines st.baseV pbs st.strike)
    ∧ (st.baseV.length ≠ m →
        (system_wheel m sample pbs st).2 = sample
        ∧ (system_wheel m sample pbs st).1.ticket
            = st.ticket ++ wheel_lines sample pbs st.strike) := by
  refine ⟨rfl, fun h => ?_, fun h => ?_⟩
  · simp only [system_wheel]
    rw [if_pos h]
    exact ⟨rfl, rfl⟩
  · simp only [system_wheel]
    rw [if_neg h]
    exact ⟨rfl, rfl⟩

/-- Witness for C10: an empty stored base set and a SYSTEM7 wheel — the
sample is used. -/
theorem system_wheel_base_choice_witness :
    initState.baseV.length ≠ 7
    ∧ ((system_wheel 7 [1, 2, 3, 4, 5, 6, 7] [] initState).2 = [1, 2, 3, 4, 5, 6, 7]
        ∧ (system_wheel 7 [1, 2, 3, 4, 5, 6, 7] [] initState).1.ticket
            = initState.ticket ++ wheel_lines [1, 2, 3, 4, 5, 6, 7] [] initState.strike) :=
  ⟨by decide,
    (system_wheel_base_choice initState 7 [1, 2, 3, 4, 5, 6, 7] []).2.2 (by decide)⟩

/-! ## C4: shape of parsed ticket lines -/

/-- If `parse` keeps a line, the kept numbers are the in-range collected
integer tokens truncated to the first six, and there are exactly six of
them. -/
theorem parseLine_some_shape {raw : Str} {tl : TicketLine} (h : parseLine raw = some tl) :
    tl.nums = ((parseToks (tokenize ((pyStrip raw).takeWhile (fun c => c ≠ '\t'))) []
        none).1.filter (fun n => decide (1 ≤ n ∧ n ≤ 40))).take 6
    ∧ tl.nums.length = 6 := by
  simp only [parseLine] at h
  by_cases h1 : pyStrip raw = []
  · rw [if_pos h1] at h; exact Option.noConfusion h
  rw [if_neg h1] at h
  by_cases h2 : (pyStrip raw).head? = some '#'
  · rw [if_pos h2] at h; exact Option.noConfusion h
  rw [if_neg h2] at h
  by_cases h3 : (((parseToks (tokenize ((pyStrip raw).takeWhile (fun c => c ≠ '\t'))) []
      none).1.filter (fun n => decide (1 ≤ n ∧ n ≤ 40))).take 6).length < 6
  · rw [if_pos h3] at h; exact Option.noConfusion h
  · rw [if_neg h3] at h
    injection h with h
    subst h
    refine ⟨rfl, ?_⟩
    rw [List.length_take] at h3 ⊢
    omega

/-- C4 (counterexample to distinctness): the parser does not
deduplicate — the line `"01 01 01 01 01 01"` is kept as a TicketLine
whose six numbers are all equal. -/
theorem parse_ticket_lines_distinct_counterexample :
    parse_ticket_lines ["01 01 01 01 01 01".data] = [⟨[1, 1, 1, 1, 1, 1], none⟩]
    ∧ ¬ ([1, 1, 1, 1, 1, 1] : List Int).Nodup :=
  ⟨by decide, by decide⟩

/-- C4 (amended): every TicketLine returned by the parser contains
exactly 6 integers — not necessarily distinct — each in [1,40], being
the integer tokens of its source line in order of appearance truncated
to the first 6 in-range values; any line yielding fewer than 6 valid
numbers is discarded entirely. -/
theorem parse_ticket_lines_six_in_range :
    (∀ (lines : List Str) (tl : TicketLine), tl ∈ parse_ticket_lines lines →
        tl.nums.length = 6 ∧ ∀ n ∈ tl.nums, 1 ≤ n ∧ n ≤ 40)
    ∧ (∀ (lines : List Str) (tl : TicketLine), tl ∈ parse_ticket_lines lines →
        ∃ raw ∈ lines, parseLine raw = some tl)
    ∧ (∀ (raw : Str) (tl : TicketLine), parseLine raw = some tl →
        tl.nums = ((parseToks (tokenize ((pyStrip raw).takeWhile (fun c => c ≠ '\t'))) []
            none).1.filter (fun n => decide (1 ≤ n ∧ n ≤ 40))).take 6)
    ∧ (∀ raw : Str,
        ((parseToks (tokenize ((pyStrip raw).takeWhile (fun c => c ≠ '\t'))) [] none).1.filter
            (fun n => decide (1 ≤ n ∧ n ≤ 40))).length < 6 →
        parseLine raw = none) := by
  refine ⟨?_, ?_, ?_, ?_⟩
  · intro lines tl hmem
    obtain ⟨raw, hraw, hp⟩ := List.mem_filterMap.mp hmem
    obtain ⟨hnums, hlen⟩ := parseLine_some_shape hp
    refine ⟨hlen, ?_⟩
    intro n hn
    rw [hnums] at hn
    have hfil := (List.mem_filter.mp (List.mem_of_mem_take hn)).2
    exact of_decide_eq_true hfil
  · intro lines tl hmem
    exact List.mem_filterMap.mp hmem
  · intro raw tl hp
    exact (parseLine_some_shape hp).1
  · intro raw hshort
    simp only [parseLine]
    by_cases h1 : pyStrip raw = []
    · rw [if_pos h1]
    rw [if_neg h1]
    by_cases h2 : (pyStrip raw).head? = some '#'
    · rw [if_pos h2]
    rw [if_neg h2, if_pos (by rw [List.length_take]; omega)]

/-- Witness for C4's amended theorem on a concrete kept line. -/
theorem parse_ticket_lines_six_in_range_witness :
    (⟨[3, 11, 14, 22, 33, 36], none⟩ : TicketLine)
        ∈ parse_ticket_lines ["03 11 14 22 33 36".data]
    ∧ ((⟨[3, 11, 14, 22, 33, 36], none⟩ : TicketLine).nums.length = 6
        ∧ ∀ n ∈ (⟨[3, 11, 14, 22, 33, 36], none⟩ : TicketLine).nums, 1 ≤ n ∧ n ≤ 40) :=
  ⟨by decide,
    parse_ticket_lines_six_in_range.1 ["03 11 14 22 33 36".data]
      ⟨[3, 11, 14, 22, 33, 36], none⟩ (by decide)⟩

/-! ## C9: round trip through the emitted ticket-line format

Character-level facts about the two-digit tokens, then facts about
Python `split`, and finally the round-trip theorem. -/

theorem digitChar_facts (d : Nat) (hd : d ≤ 9) :
    isWs (digitChar d) = false
    ∧ (('P' == digitChar d) = false)
    ∧ digitChar d ≠ '|' ∧ digitChar d ≠ ',' ∧ digitChar d ≠ '\t'
    ∧ digitChar d ≠ '#' ∧ digitChar d ≠ '-' ∧ digitChar d ≠ '+'
    ∧ Char.toUpper (digitChar d) = digitChar d
    ∧ (digitChar d).isDigit = true
    ∧ (digitChar d).toNat - 48 = d
    ∧ repl (digitChar d) = digitChar d := by
  interval_cases d <;> exact ⟨rfl, rfl, by decide, by decide, by decide, by decide,
    by decide, by decide, by decide, rfl, by decide, rfl⟩

theorem z2_mem {n : Int} {c : Char} (hn2 : n ≤ 99) (hc : c ∈ z2 n) :
    ∃ d, d ≤ 9 ∧ c = digitChar d := by
  have h10 : n.toNat / 10 ≤ 9 := by omega
  have hm : n.toNat % 10 ≤ 9 := by omega
  rcases hc with _ | ⟨_, h⟩
  · exact ⟨n.toNat / 10, h10, rfl⟩
  · rcases h with _ | ⟨_, h⟩
    · exact ⟨n.toNat % 10, hm, rfl⟩
    · cases h

theorem z2_ne_nil (n : Int) : z2 n ≠ [] := by simp [z2]

theorem z2_noWs {n : Int} (hn2 : n ≤ 99) : ∀ c ∈ z2 n, isWs c = false := by
  intro c hc
  obtain ⟨d, hd, rfl⟩ := z2_mem hn2 hc
  exact (digitChar_facts d hd).1

theorem z2_toUpper {n : Int} (hn2 : n ≤ 99) : (z2 n).map Char.toUpper = z2 n := by
  have h10 : n.toNat / 10 ≤ 9 := by omega
  have hm : n.toNat % 10 ≤ 9 := by omega
  show [Char.toUpper (digitChar (n.toNat / 10)), Char.toUpper (digitChar (n.toNat % 10))] = _
  rw [(digitChar_facts _ h10).2.2.2.2.2.2.2.2.1, (digitChar_facts _ hm).2.2.2.2.2.2.2.2.1]
  rfl

theorem z2_map_repl {n : Int} (hn2 : n ≤ 99) : (z2 n).map repl = z2 n := by
  have h10 : n.toNat / 10 ≤ 9 := by omega
  have hm : n.toNat % 10 ≤ 9 := by omega
  show [repl (digitChar (n.toNat / 10)), repl (digitChar (n.toNat % 10))] = _
  rw [(digitChar_facts _ h10).2.2.2.2.2.2.2.2.2.2.2, (digitChar_facts _ hm).2.2.2.2.2.2.2.2.2.2.2]
  rfl

theorem z2_not_pb {n : Int} (hn2 : n ≤ 99) : ("PB".data).isPrefixOf (z2 n) = false := by
  have h10 : n.toNat / 10 ≤ 9 := by omega
  show List.isPrefixOf ['P', 'B'] [digitChar (n.toNat / 10), digitChar (n.toNat % 10)] = false
  show (('P' == digitChar (n.toNat / 10)) &&
    List.isPrefixOf ['B'] [digitChar (n.toNat % 10)]) = false
  rw [(digitChar_facts _ h10).2.1]
  rfl

theorem pyInt?_z2 {n : Int} (hn1 : 0 ≤ n) (hn2 : n ≤ 99) : pyInt? (z2 n) = some n := by
  have h10 : n.toNat / 10 ≤ 9 := by omega
  have hm : n.toNat % 10 ≤ 9 := by omega
  obtain ⟨f1, f2, f3, f4, f5, f6, f7, f8, f9, f10, f11, f12⟩ := digitChar_facts _ h10
  obtain ⟨g1, g2, g3, g4, g5, g6, g7, g8, g9, g10, g11, g12⟩ := digitChar_facts _ hm
  show (if digitChar (n.toNat / 10) = '-' then _
    else if digitChar (n.toNat / 10) = '+' then _
    else if (z2 n).all Char.isDigit then
      some ((natOfDigits (z2 n) : Nat) : Int)
    else none) = some n
  rw [if_neg f7, if_neg f8, if_pos (by
    show ((digitChar (n.toNat / 10)).isDigit && ((digitChar (n.toNat % 10)).isDigit && true)) = true
    rw [f10, g10]
    rfl)]
  have hval : natOfDigits (z2 n) = n.toNat := by
    show (0 * 10 + ((digitChar (n.toNat / 10)).toNat - 48)) * 10
        + ((digitChar (n.toNat % 10)).toNat - 48) = n.toNat
    rw [Nat.zero_mul, Nat.zero_add, f11, g11]
    omega
  rw [hval, Int.toNat_of_nonneg hn1]

theorem splitWsAux_append_space (a : Str) : ∀ (b acc : Str),
    splitWsAux (a ++ ' ' :: b) acc = splitWsAux a acc ++ splitWsAux b [] := by
  induction a with
  | nil =>
    intro b acc
    show splitWsAux (' ' :: b) acc = splitWsAux [] acc ++ splitWsAux b []
    by_cases hacc : acc = []
    · simp [splitWsAux, isWs, hacc]
    · simp [splitWsAux, isWs, hacc]
  | cons c cs ih =>
    intro b acc
    show splitWsAux (c :: (cs ++ ' ' :: b)) acc = splitWsAux (c :: cs) acc ++ splitWsAux b []
    by_cases hc : isWs c
    · by_cases hacc : acc = []
      · simp [splitWsAux, hc, hacc, ih]
      · simp [splitWsAux, hc, hacc, ih]
    · simp [splitWsAux, hc, ih]

theorem splitWsAux_token (t : Str) : ∀ (acc : Str), t ≠ [] → (∀ c ∈ t, isWs c = false) →
    splitWsAux t acc = [acc.reverse ++ t] := by
  induction t with
  | nil => intro acc h _; exact absurd rfl h
  | cons c cs ih =>
    intro acc _ hno
    have hc : isWs c = false := hno c (by simp)
    show splitWsAux (c :: cs) acc = _
    cases cs with
    | nil => simp [splitWsAux, hc]
    | cons c2 cs2 =>
      have hstep : splitWsAux (c :: c2 :: cs2) acc = splitWsAux (c2 :: cs2) (c :: acc) := by
        simp [splitWsAux, hc]
      rw [hstep, ih (c :: acc) (by simp) (fun x hx => hno x (by simp [hx]))]
      simp

theorem pySplitWs_token {t : Str} (h1 : t ≠ []) (h2 : ∀ c ∈ t, isWs c = false) :
    pySplitWs t = [t] := by
  unfold pySplitWs
  rw [splitWsAux_token t [] h1 h2]
  rfl

theorem pySplitWs_append_space (a b : Str) :
    pySplitWs (a ++ ' ' :: b) = pySplitWs a ++ pySplitWs b :=
  splitWsAux_append_space a b []

theorem joinSp_cons_cons (t u : Str) (ts : List Str) :
    joinSp (t :: u :: ts) = t ++ ' ' :: joinSp (u :: ts) := rfl

theorem pySplitWs_joinSp : ∀ (toks : List Str), (∀ t ∈ toks, t ≠ []) →
    (∀ t ∈ toks, ∀ c ∈ t, isWs c = false) → pySplitWs (joinSp toks) = toks := by
  intro toks
  induction toks with
  | nil => intro _ _; rfl
  | cons t ts ih =>
    intro h1 h2
    cases ts with
    | nil => exact pySplitWs_token (h1 t (by simp)) (h2 t (by simp))
    | cons t2 ts2 =>
      rw [joinSp_cons_cons, pySplitWs_append_space,
        pySplitWs_token (h1 t (by simp)) (h2 t (by simp)),
        ih (fun x hx => h1 x (by simp [hx])) (fun x hx => h2 x (by simp [hx]))]
      rfl

theorem dropWhile_head_false {p : Char → Bool} : ∀ {s : Str},
    (∀ c, s.head? = some c → p c = false) → s.dropWhile p = s := by
  intro s h
  cases s with
  | nil => rfl
  | cons c cs =>
    rw [List.dropWhile_cons, if_neg]
    simp [h c rfl]

theorem pyStrip_eq_self {s : Str} (hh : ∀ c, s.head? = some c → isWs c = false)
    (hl : ∀ c, s.getLast? = some c → isWs c = false) : pyStrip s = s := by
  unfold pyStrip
  rw [dropWhile_head_false hh, dropWhile_head_false (by
    intro c hc
    rw [List.head?_reverse] at hc
    exact hl c hc), List.reverse_reverse]

theorem takeWhile_append_stop {p : Char → Bool} {x : Char} (hx : p x = false) :
    ∀ (a b : Str), (∀ c ∈ a, p c = true) → (a ++ x :: b).takeWhile p = a := by
  intro a
  induction a with
  | nil =>
    intro b _
    show (x :: b).takeWhile p = []
    rw [List.takeWhile_cons, if_neg (by simp [hx])]
  | cons c cs ih =>
    intro b h
    show ((c :: (cs ++ x :: b)).takeWhile p) = c :: cs
    rw [List.takeWhile_cons, if_pos (by simp [h c (by simp)]),
      ih b (fun u hu => h u (by simp [hu]))]

theorem map_eq_self_of {f : Char → Char} : ∀ {s : Str}, (∀ c ∈ s, f c = c) → s.map f = s := by
  intro s h
  induction s with
  | nil => rfl
  | cons c cs ih => simp [h c (by simp), ih (fun u hu => h u (by simp [hu]))]

theorem map_joinSp (f : Char → Char) (hf : f ' ' = ' ') : ∀ (ts : List Str),
    (joinSp ts).map f = joinSp (ts.map (fun t => t.map f)) := by
  intro ts
  induction ts with
  | nil => rfl
  | cons t us ih =>
    cases us with
    | nil => rfl
    | cons u vs =>
      rw [joinSp_cons_cons, List.map_append]
      show t.map f ++ f ' ' :: (joinSp (u :: vs)).map f = _
      rw [hf, ih]
      rfl

theorem joinSp_ne_nil {t : Str} (ht : t ≠ []) (ts : List Str) : joinSp (t :: ts) ≠ [] := by
  cases ts with
  | nil => exact ht
  | cons u vs =>
    rw [joinSp_cons_cons]
    cases t with
    | nil => exact absurd rfl ht
    | cons c cs => simp

theorem joinSp_head {t : Str} (ht : t ≠ []) (ts : List Str) :
    (joinSp (t :: ts)).head? = t.head? := by
  cases ts with
  | nil => rfl
  | cons u vs =>
    rw [joinSp_cons_cons, List.head?_append]
    cases t with
    | nil => exact absurd rfl ht
    | cons c cs => rfl

theorem joinSp_getLast : ∀ (ts : List Str) (t : Str), t ∈ ts → (∀ u ∈ ts, u ≠ []) →
    ∃ u ∈ ts, (joinSp ts).getLast? = u.getLast? := by
  intro ts
  induction ts with
  | nil => intro t h; cases h
  | cons t us ih =>
    intro _ _ hall
    cases us with
    | nil => exact ⟨t, by simp, rfl⟩
    | cons u vs =>
      obtain ⟨w, hw, hwe⟩ := ih u (by simp) (fun x hx => hall x (by simp [hx]))
      refine ⟨w, by simp [hw], ?_⟩
      rw [joinSp_cons_cons, List.getLast?_append]
      have hne : joinSp (u :: vs) ≠ [] := joinSp_ne_nil (hall u (by simp)) vs
      have h2 : (' ' :: joinSp (u :: vs)).getLast? = (joinSp (u :: vs)).getLast? := by
        cases hj : joinSp (u :: vs) with
        | nil => exact absurd hj hne
        | cons a as => rw [List.getLast?_cons_cons]
      rw [h2, hwe]
      cases hl : w.getLast? with
      | none => exact absurd (List.getLast?_eq_none_iff.mp hl) (hall w (by simp [hw]))
      | some c => rfl

theorem list_map_id {α : Type} (f : α → α) : ∀ (l : List α), (∀ a ∈ l, f a = a) → l.map f = l := by
  intro l h
  induction l with
  | nil => rfl
  | cons a as ih => simp [h a (by simp), ih (fun u hu => h u (by simp [hu]))]

theorem getLast?_append_right {a b : Str} (hb : b ≠ []) :
    (a ++ b).getLast? = b.getLast? := by
  rw [List.getLast?_append]
  cases hbl : b.getLast? with
  | none => exact absurd (List.getLast?_eq_none_iff.mp hbl) hb
  | some c => rfl

theorem joinSp_mem : ∀ (ts : List Str) (c : Char), c ∈ joinSp ts →
    (∃ t ∈ ts, c ∈ t) ∨ c = ' ' := by
  intro ts
  induction ts with
  | nil => intro c h; cases h
  | cons t us ih =>
    intro c h
    cases us with
    | nil => exact Or.inl ⟨t, by simp, h⟩
    | cons u vs =>
      rw [joinSp_cons_cons] at h
      rcases List.mem_append.mp h with h1 | h1
      · exact Or.inl ⟨t, by simp, h1⟩
      · rcases h1 with _ | ⟨_, h2⟩
        · exact Or.inr rfl
        · rcases ih c h2 with ⟨w, hw, hcw⟩ | he
          · exact Or.inl ⟨w, by simp [hw], hcw⟩
          · exact Or.inr he

theorem pySplitWs_cons_ws (c : Char) (hc : isWs c = true) (x : Str) :
    pySplitWs (c :: x) = pySplitWs x := by
  show splitWsAux (c :: x) [] = splitWsAux x []
  simp [splitWsAux, hc]

theorem parseToks_skip_int (tok : Str) (rest : List Str) (nums : List Int) (pb : Option Int)
    (hup : tok.map Char.toUpper = tok)
    (hpb : ("PB".data).isPrefixOf tok = false)
    {v : Int} (hint : pyInt? tok = some v) :
    parseToks (tok :: rest) nums pb = parseToks rest (nums ++ [v]) pb := by
  conv_lhs => unfold parseToks
  simp only [hup, hpb, hint, Bool.false_eq_true, if_false]

theorem parseToks_digits : ∀ (ns : List Int), (∀ n ∈ ns, 1 ≤ n ∧ n ≤ 40) →
    ∀ (rest : List Str) (acc : List Int) (pb : Option Int),
    parseToks (ns.map z2 ++ rest) acc pb = parseToks rest (acc ++ ns) pb := by
  intro ns
  induction ns with
  | nil => intro _ rest acc pb; simp
  | cons n ms ih =>
    intro hr rest acc pb
    have hn := hr n (by simp)
    show parseToks (z2 n :: (ms.map z2 ++ rest)) acc pb = _
    rw [parseToks_skip_int (z2 n) _ acc pb (z2_toUpper (by omega)) (z2_not_pb (by omega))
      (pyInt?_z2 (by omega) (by omega))]
    rw [ih (fun u hu => hr u (by simp [hu])) rest (acc ++ [n]) pb]
    simp

theorem parseToks_pb_pair (p : Int) (h0 : 0 ≤ p) (hp9 : p ≤ 99) (acc : List Int)
    (pb0 : Option Int) :
    parseToks ["PB".data, z2 p] acc pb0 = (acc, some p) := by
  have step : parseToks ["PB".data, z2 p] acc pb0 =
      (match pyInt? (z2 p) with
        | some v => parseToks ([] : List Str) acc (some v)
        | none => parseToks ([] : List Str) acc pb0) := rfl
  rw [step, pyInt?_z2 h0 hp9]
  rfl

theorem head?_append_left {a b : Str} {c : Char} (h : a.head? = some c) :
    (a ++ b).head? = some c := by
  rw [List.head?_append, h]
  rfl

theorem map_repl_joinSp_z2 (nums : List Int) (hrange : ∀ n ∈ nums, 1 ≤ n ∧ n ≤ 40) :
    (joinSp (nums.map z2)).map repl = joinSp (nums.map z2) := by
  rw [map_joinSp repl rfl]
  congr 1
  refine list_map_id _ (nums.map z2) ?_
  intro t ht
  obtain ⟨n, hn, rfl⟩ := List.mem_map.mp ht
  exact z2_map_repl (by have := hrange n hn; omega)

theorem tokens_z2_ne_nil (nums : List Int) : ∀ t ∈ nums.map z2, t ≠ [] := by
  intro t ht
  obtain ⟨n, _, rfl⟩ := List.mem_map.mp ht
  exact z2_ne_nil n

theorem tokens_z2_noWs (nums : List Int) (hrange : ∀ n ∈ nums, 1 ≤ n ∧ n ≤ 40) :
    ∀ t ∈ nums.map z2, ∀ c ∈ t, isWs c = false := by
  intro t ht
  obtain ⟨n, hn, rfl⟩ := List.mem_map.mp ht
  exact z2_noWs (by have := hrange n hn; omega)

theorem tokenize_left (nums : List Int) (hrange : ∀ n ∈ nums, 1 ≤ n ∧ n ≤ 40)
    (pb : Option Int) (hpbr : ∀ p, pb = some p → 0 ≤ p ∧ p ≤ 99) :
    tokenize (ticket_line_left nums pb) =
      nums.map z2 ++ (match pb with
        | some p => ["PB".data, z2 p]
        | none => ([] : List Str)) := by
  cases pb with
  | none =>
    show pySplitWs ((joinSp (nums.map z2)).map repl) = _
    rw [map_repl_joinSp_z2 nums hrange,
      pySplitWs_joinSp _ (tokens_z2_ne_nil nums) (tokens_z2_noWs nums hrange)]
    simp
  | some p =>
    obtain ⟨hp0, hp99⟩ := hpbr p rfl
    show pySplitWs ((joinSp (nums.map z2) ++ (" | PB ".data ++ z2 p)).map repl) = _
    rw [List.map_append, List.map_append, map_repl_joinSp_z2 nums hrange,
      show (" | PB ".data).map repl = [' ', ' ', ' ', 'P', 'B', ' '] from rfl,
      z2_map_repl hp99]
    have hshape : joinSp (nums.map z2) ++ ([' ', ' ', ' ', 'P', 'B', ' '] ++ z2 p)
        = joinSp (nums.map z2) ++ ' ' :: (' ' :: ' ' :: ('P' :: 'B' :: ' ' :: z2 p)) := rfl
    rw [hshape, pySplitWs_append_space,
      pySplitWs_joinSp _ (tokens_z2_ne_nil nums) (tokens_z2_noWs nums hrange),
      pySplitWs_cons_ws ' ' rfl, pySplitWs_cons_ws ' ' rfl,
      show ('P' :: 'B' :: ' ' :: z2 p) = ['P', 'B'] ++ ' ' :: z2 p from rfl,
      pySplitWs_append_space,
      pySplitWs_token (by simp) (by decide),
      pySplitWs_token (z2_ne_nil p) (z2_noWs hp99)]
    rfl

theorem ticket_line_left_head (n1 : Int) (ns : List Int) (pb : Option Int) :
    (ticket_line_left (n1 :: ns) pb).head? = some (digitChar (n1.toNat / 10)) := by
  have hj : (joinSp ((n1 :: ns).map z2)).head? = some (digitChar (n1.toNat / 10)) := by
    rw [show (n1 :: ns).map z2 = z2 n1 :: ns.map z2 from rfl,
      joinSp_head (z2_ne_nil n1)]
    rfl
  cases pb with
  | none => exact hj
  | some p => exact head?_append_left hj

theorem ticket_line_left_getLast (n1 : Int) (ns : List Int) (hrange : ∀ n ∈ n1 :: ns, 1 ≤ n ∧ n ≤ 40)
    (pb : Option Int) :
    ∃ d, d ≤ 9 ∧ (ticket_line_left (n1 :: ns) pb).getLast? = some (digitChar d) := by
  cases pb with
  | none =>
    obtain ⟨u, hu, he⟩ := joinSp_getLast ((n1 :: ns).map z2) (z2 n1) (by simp)
      (tokens_z2_ne_nil _)
    obtain ⟨n, hn, rfl⟩ := List.mem_map.mp hu
    refine ⟨n.toNat % 10, by omega, ?_⟩
    rw [show ticket_line_left (n1 :: ns) none = joinSp ((n1 :: ns).map z2) from rfl, he]
    rfl
  | some p =>
    refine ⟨p.toNat % 10, by omega, ?_⟩
    show (joinSp ((n1 :: ns).map z2) ++ (" | PB ".data ++ z2 p)).getLast? = _
    rw [getLast?_append_right (by simp), getLast?_append_right (z2_ne_nil p)]
    rfl

theorem ticket_line_left_no_tab (nums : List Int) (hrange : ∀ n ∈ nums, 1 ≤ n ∧ n ≤ 40)
    (pb : Option Int) (hpbr : ∀ p, pb = some p → 0 ≤ p ∧ p ≤ 99) :
    ∀ c ∈ ticket_line_left nums pb, c ≠ '\t' := by
  have hjoin : ∀ c ∈ joinSp (nums.map z2), c ≠ '\t' := by
    intro c hc
    rcases joinSp_mem _ c hc with ⟨t, ht, hct⟩ | he
    · obtain ⟨n, hn, rfl⟩ := List.mem_map.mp ht
      obtain ⟨d, hd, rfl⟩ := z2_mem (by have := hrange n hn; omega) hct
      exact (digitChar_facts d hd).2.2.2.2.1
    · rw [he]; decide
  cases pb with
  | none => exact hjoin
  | some p =>
    intro c hc
    rcases List.mem_append.mp hc with h1 | h1
    · exact hjoin c h1
    · rcases List.mem_append.mp h1 with h2 | h2
      · have h2' : c ∈ [' ', '|', ' ', 'P', 'B', ' '] := h2
        simp only [List.mem_cons, List.not_mem_nil, or_false] at h2'
        rcases h2' with rfl | rfl | rfl | rfl | rfl | rfl <;> decide
      · obtain ⟨d, hd, rfl⟩ := z2_mem (hpbr p rfl).2 h2
        exact (digitChar_facts d hd).2.2.2.2.1

theorem getLast?_cons_of_ne {c : Char} {l : Str} (hl : l ≠ []) :
    (c :: l).getLast? = l.getLast? := by
  cases l with
  | nil => exact absurd rfl hl
  | cons a as => exact List.getLast?_cons_cons

/-- Parsing the exact line of text that `add_ticket_line` emits for a
valid ticket line reproduces that line. -/
theorem parseLine_emit (nums : List Int) (pb : Option Int) (strike_on : Bool)
    (hlen : nums.length = 6) (hrange : ∀ n ∈ nums, 1 ≤ n ∧ n ≤ 40)
    (hpb : ∀ p, pb = some p → 1 ≤ p ∧ p ≤ 10) :
    parseLine (add_ticket_line_text nums pb strike_on) = some ⟨nums, pb⟩ := by
  cases nums with
  | nil => simp at hlen
  | cons n1 ns =>
  have hpbr : ∀ p, pb = some p → 0 ≤ p ∧ p ≤ 99 := by
    intro p hp
    have := hpb p hp
    omega
  have hn1 : 1 ≤ n1 ∧ n1 ≤ 40 := hrange n1 (by simp)
  have hhead : (add_ticket_line_text (n1 :: ns) pb strike_on).head?
      = some (digitChar (n1.toNat / 10)) := by
    unfold add_ticket_line_text
    by_cases hs : strike_on = true
    · rw [if_pos hs]
      exact head?_append_left (ticket_line_left_head n1 ns pb)
    · rw [if_neg hs]
      exact ticket_line_left_head n1 ns pb
  have hlast : ∃ d, d ≤ 9
      ∧ (add_ticket_line_text (n1 :: ns) pb strike_on).getLast? = some (digitChar d) := by
    unfold add_ticket_line_text
    by_cases hs : strike_on = true
    · rw [if_pos hs, getLast?_append_right (by simp),
        show List.map z2 (List.take 4 (n1 :: ns)) = z2 n1 :: List.map z2 (List.take 3 ns)
          from rfl]
      obtain ⟨u, hu, hue⟩ := joinSp_getLast (z2 n1 :: List.map z2 (List.take 3 ns)) (z2 n1)
        (by simp) (tokens_z2_ne_nil (n1 :: ns.take 3))
      obtain ⟨n, hn, rfl⟩ :=
        List.mem_map.mp (show u ∈ (n1 :: ns.take 3).map z2 from hu)
      refine ⟨n.toNat % 10, by omega, ?_⟩
      rw [getLast?_cons_of_ne (joinSp_ne_nil (z2_ne_nil n1) _), hue]
      rfl
    · rw [if_neg hs]
      exact ticket_line_left_getLast n1 ns hrange pb
  have hene : add_ticket_line_text (n1 :: ns) pb strike_on ≠ [] := by
    intro h
    rw [h] at hhead
    exact Option.noConfusion hhead
  have hstrip : pyStrip (add_ticket_line_text (n1 :: ns) pb strike_on)
      = add_ticket_line_text (n1 :: ns) pb strike_on := by
    obtain ⟨d, hd, hl⟩ := hlast
    refine pyStrip_eq_self ?_ ?_
    · intro c hc
      rw [hhead] at hc
      injection hc with hc
      subst hc
      exact (digitChar_facts _ (by omega : n1.toNat / 10 ≤ 9)).1
    · intro c hc
      rw [hl] at hc
      injection hc with hc
      subst hc
      exact (digitChar_facts d hd).1
  have htake : (add_ticket_line_text (n1 :: ns) pb strike_on).takeWhile
        (fun c => decide (c ≠ '\t')) = ticket_line_left (n1 :: ns) pb := by
    unfold add_ticket_line_text
    by_cases hs : strike_on = true
    · rw [if_pos hs]
      exact takeWhile_append_stop (by decide) _ _
        (fun c hc => decide_eq_true (ticket_line_left_no_tab _ hrange pb hpbr c hc))
    · rw [if_neg hs]
      exact List.takeWhile_eq_self_iff.mpr
        (fun c hc => decide_eq_true (ticket_line_left_no_tab _ hrange pb hpbr c hc))
  have hhash : ¬ (add_ticket_line_text (n1 :: ns) pb strike_on).head? = some '#' := by
    intro h
    rw [hhead] at h
    injection h with h
    exact (digitChar_facts _ (by omega : n1.toNat / 10 ≤ 9)).2.2.2.2.2.1 h
  have hfil : (n1 :: ns).filter (fun n => decide (1 ≤ n ∧ n ≤ 40)) = n1 :: ns :=
    List.filter_eq_self.mpr (fun a ha => decide_eq_true (hrange a ha))
  have htk : (n1 :: ns).take 6 = n1 :: ns := List.take_of_length_le (by omega)
  have hpt : parseToks (tokenize (ticket_line_left (n1 :: ns) pb)) [] none
      = (n1 :: ns, pb) := by
    rw [tokenize_left _ hrange pb hpbr]
    cases pb with
    | none =>
      rw [show ((n1 :: ns).map z2 ++ ([] : List Str)) = (n1 :: ns).map z2 from by simp]
      rw [show (n1 :: ns).map z2 = (n1 :: ns).map z2 ++ ([] : List Str) from by simp,
        parseToks_digits _ hrange ([] : List Str) [] none]
      rfl
    | some p =>
      rw [parseToks_digits _ hrange _ [] none,
        parseToks_pb_pair p (by have := hpb p rfl; omega) (by have := hpb p rfl; omega)]
      rfl
  simp only [parseLine]
  rw [hstrip, if_neg hene, if_neg hhash, htake, hpt]
  simp only [hfil, htk]
  rw [if_neg (by omega : ¬ (n1 :: ns).length < 6)]
  cases pb with
  | none => rfl
  | some p =>
    have hp := hpb p rfl
    simp [hp]

/-- C9: parsing the exact text `add_ticket_line` emits for a valid
ticket line — numbers space-separated and zero-padded to two digits,
optional `| PB NN` suffix, optional tab-separated strike column — yields
exactly that TicketLine back: same numbers in the same order, same
supplementary value. -/
theorem add_ticket_line_round_trip (nums : List Int) (pb : Option Int) (strike_on : Bool)
    (hlen : nums.length = 6) (hnodup : nums.Nodup)
    (hrange : ∀ n ∈ nums, 1 ≤ n ∧ n ≤ 40)
    (hpb : ∀ p, pb = some p → 1 ≤ p ∧ p ≤ 10) :
    parse_ticket_lines [add_ticket_line_text nums pb strike_on] = [⟨nums, pb⟩] := by
  simp [parse_ticket_lines, parseLine_emit nums pb strike_on hlen hrange hpb]

/-- Witness for C9: the line `03 11 14 22 33 36 | PB 05` with the strike
column enabled. -/
theorem add_ticket_line_round_trip_witness :
    (([3, 11, 14, 22, 33, 36] : List Int).length = 6
      ∧ ([3, 11, 14, 22, 33, 36] : List Int).Nodup
      ∧ (∀ n ∈ ([3, 11, 14, 22, 33, 36] : List Int), 1 ≤ n ∧ n ≤ 40)
      ∧ (∀ p : Int, (some 5 : Option Int) = some p → 1 ≤ p ∧ p ≤ 10))
    ∧ parse_ticket_lines [add_ticket_line_text [3, 11, 14, 22, 33, 36] (some 5) true]
        = [⟨[3, 11, 14, 22, 33, 36], some 5⟩] :=
  ⟨⟨by decide, by decide, by decide, fun p hp => by cases hp; decide⟩,
    add_ticket_line_round_trip [3, 11, 14, 22, 33, 36] (some 5) true
      (by decide) (by decide) (by decide) (fun p hp => by cases hp; decide)⟩
